import Mathlib

/-
Shallow embedding of src/combine_images.py (filipstrand/gitbit).

The script composites a screenshot and a logo with PIL:
frames the screenshot on a rounded dark rectangle, pastes a half-overlapping
scaled logo at the top-right corner of the frame, crops to content bounds
and adds a uniform transparent border, then saves the result.

Images are modelled as a width, a height and a total pixel function; the PIL
operations used by the script (Image.new, ImageDraw.rounded_rectangle fill,
putalpha, paste with an RGBA mask, thumbnail, getbbox, crop) are modelled
from their documented semantics: paste blending uses the MULDIV255 rounding
of Pillow, getbbox trims pixels whose alpha channel is zero, and the
rounded-rectangle fill is the ideal rounded-rectangle region with the corner
radius clamped to half of the smaller box side. The Lanczos resampling
kernel of thumbnail is kept as an explicit function parameter of the model,
since none of the verified properties depend on the kernel.
-/

namespace GitbitModel

/-- Pixel value with red, green, blue and alpha bands. -/
structure RGBA where
  r : ℕ
  g : ℕ
  b : ℕ
  a : ℕ
deriving DecidableEq, Repr

/-- Raster image: a size together with a pixel function. Only pixels with
coordinates below the size are meaningful. -/
structure Img where
  width : ℕ
  height : ℕ
  pixel : ℕ → ℕ → RGBA

/-- Fully transparent pixel, the fill of every fresh RGBA canvas in the script. -/
def clear : RGBA := ⟨0, 0, 0, 0⟩

/-- Background color of the frame (line 16 of the script). -/
def bg_color : RGBA := ⟨20, 20, 20, 255⟩

/-- Model of Image.new with mode RGBA and a constant fill color. -/
def imageNew (w h : ℕ) (c : RGBA) : Img := ⟨w, h, fun _ _ => c⟩

/-- Pillow rounding helper MULDIV255: divides a product by 255 with rounding,
computed as in Paste.c via two shifts. -/
def muldiv255 (x y : ℕ) : ℕ := (x * y + 128 + (x * y + 128) / 256) / 256

/-- Per-band blend of Pillow paste with a mask value m: destination band d,
source band s. -/
def blendC (m d s : ℕ) : ℕ := muldiv255 d (255 - m) + muldiv255 s m

/-- Blend of a whole pixel under mask value m. -/
def blendPixel (m : ℕ) (d s : RGBA) : RGBA :=
  ⟨blendC m d.r s.r, blendC m d.g s.g, blendC m d.b s.b, blendC m d.a s.a⟩

/-- Model of dst.paste(src, (px, py), src): inside the pasted region each band
is blended using the alpha band of the source as mask; positions may be
negative, in which case Pillow clips the source. -/
def paste (dst src : Img) (px py : ℤ) : Img :=
  ⟨dst.width, dst.height, fun x y =>
    if px ≤ (x : ℤ) ∧ (x : ℤ) < px + (src.width : ℤ) ∧
       py ≤ (y : ℤ) ∧ (y : ℤ) < py + (src.height : ℤ) then
      let s := src.pixel ((x : ℤ) - px).toNat ((y : ℤ) - py).toNat
      blendPixel s.a (dst.pixel x y) s
    else dst.pixel x y⟩

/-- Squaring helper for the corner test. -/
def sq (n : ℕ) : ℕ := n * n

/-- Effective corner radius: Pillow reduces the radius when the diameter
exceeds a side of the box. -/
def effRadius (w h r : ℕ) : ℕ := min r (min (w / 2) (h / 2))

/-- Membership in the filled rounded rectangle drawn on the box
(0, 0, w, h): inside the box, and inside the corner circle whenever the
point lies in one of the four corner squares. -/
def inRoundedRect (w h r x y : ℕ) : Prop :=
  x ≤ w ∧ y ≤ h ∧
  (x < effRadius w h r ∧ y < effRadius w h r →
    sq (effRadius w h r - x) + sq (effRadius w h r - y) ≤ sq (effRadius w h r)) ∧
  (x < effRadius w h r ∧ h - effRadius w h r < y →
    sq (effRadius w h r - x) + sq (y - (h - effRadius w h r)) ≤ sq (effRadius w h r)) ∧
  (w - effRadius w h r < x ∧ y < effRadius w h r →
    sq (x - (w - effRadius w h r)) + sq (effRadius w h r - y) ≤ sq (effRadius w h r)) ∧
  (w - effRadius w h r < x ∧ h - effRadius w h r < y →
    sq (x - (w - effRadius w h r)) + sq (y - (h - effRadius w h r)) ≤ sq (effRadius w h r))

instance (w h r x y : ℕ) : Decidable (inRoundedRect w h r x y) := by
  unfold inRoundedRect
  exact inferInstance

/-- Model of draw.rounded_rectangle((0, 0) + img.size, radius, fill = c) on an
image: pixels of the rounded-rectangle region receive c. -/
def roundedRectangleFill (img : Img) (radius : ℕ) (c : RGBA) : Img :=
  ⟨img.width, img.height, fun x y =>
    if inRoundedRect img.width img.height radius x y then c else img.pixel x y⟩

/-- Model of add_rounded_corners (lines 3 to 8): a fresh L mask receives a
filled rounded rectangle over the whole image, and putalpha replaces the
alpha band of the image with that mask. -/
def add_rounded_corners (img : Img) (radius : ℕ) : Img :=
  ⟨img.width, img.height, fun x y =>
    ⟨(img.pixel x y).r, (img.pixel x y).g, (img.pixel x y).b,
     if inRoundedRect img.width img.height radius x y then 255 else 0⟩⟩

/-- Model of Image.copy. -/
def Img.copy (img : Img) : Img := ⟨img.width, img.height, img.pixel⟩

/-- Size computed by Image.thumbnail((bw, bh)) for an image of size (w, h),
in exact rational arithmetic encoded over the integers: an image already
inside the box is untouched; otherwise the constrained dimension becomes the
box side and the free dimension is the floor or the ceiling of the exact
aspect-preserving value, whichever has aspect ratio closer to the original
(floor winning ties), clamped to at least 1. The comparisons of the Pillow
key functions are cross-multiplied to avoid fractions. -/
def thumbnailSize (bw bh w h : ℕ) : ℕ × ℕ :=
  if w ≤ bw ∧ h ≤ bh then (w, h)
  else if w * bh ≤ bw * h then
    -- box aspect at least image aspect: height is constrained to bh,
    -- width rounds bh * w / h; both keys share the denominator h * bh.
    let fl := bh * w / h
    let ce := (bh * w + h - 1) / h
    let x := if Nat.dist (w * bh) (fl * h) ≤ Nat.dist (w * bh) (ce * h) then fl else ce
    (max x 1, bh)
  else
    -- width is constrained to bw, height rounds bw * h / w; the keys have
    -- denominators h * n, compared after cross multiplication, and the key
    -- of 0 is 0.
    let fl := bw * h / w
    let ce := (bw * h + w - 1) / w
    let y := if fl = 0 then fl
             else if Nat.dist (w * fl) (bw * h) * ce ≤ Nat.dist (w * ce) (bw * h) * fl
             then fl else ce
    (bw, max y 1)

/-! ## The combine pipeline (lines 10 to 73 of the script)

The Lanczos resampling kernel used by thumbnail is an explicit parameter
`resample`, mapping an image and a target size to the resampled image. -/

/-- Horizontal padding of the frame (line 19). -/
def padding_x : ℕ := 40

/-- Top padding of the frame (line 20). -/
def padding_top : ℕ := 40

/-- Bottom padding of the frame (line 21). -/
def padding_bottom : ℕ := 40

/-- Corner radius of the frame (line 28). -/
def frame_radius : ℕ := 60

/-- Padding around the intermediate canvas (line 40). -/
def canvas_padding : ℕ := 200

/-- Uniform padding of the cropped result (line 64). -/
def final_padding : ℕ := 100

/-- Size of the rounded frame (line 23). -/
def frame_size (a : Img) : ℕ × ℕ :=
  (a.width + padding_x * 2, a.height + padding_top + padding_bottom)

/-- Fresh frame with the rounded dark rectangle drawn on it (lines 24 to 29). -/
def frameDrawn (a : Img) : Img :=
  roundedRectangleFill (imageNew (frame_size a).1 (frame_size a).2 clear)
    frame_radius bg_color

/-- Screenshot with rounded corners of radius 10 (line 32). -/
def a_rounded (a : Img) : Img := add_rounded_corners a 10

/-- Frame with the rounded screenshot pasted at (padding_x, padding_top)
(line 33). -/
def frame (a : Img) : Img :=
  paste (frameDrawn a) (a_rounded a) (padding_x : ℤ) (padding_top : ℤ)

/-- Scaled logo (lines 36 to 37): a copy of the logo shrunk by thumbnail to
fit a 650 by 650 box; a logo already inside the box is kept as is. -/
def logo_scaled (resample : Img → ℕ → ℕ → Img) (logo : Img) : Img :=
  if logo.width ≤ 650 ∧ logo.height ≤ 650 then Img.copy logo
  else resample (Img.copy logo)
    (thumbnailSize 650 650 logo.width logo.height).1
    (thumbnailSize 650 650 logo.width logo.height).2

/-- Half width of the scaled logo (line 41). -/
def logo_overlap_x (resample : Img → ℕ → ℕ → Img) (logo : Img) : ℕ :=
  (logo_scaled resample logo).width / 2

/-- Half height of the scaled logo (line 42). -/
def logo_overlap_y (resample : Img → ℕ → ℕ → Img) (logo : Img) : ℕ :=
  (logo_scaled resample logo).height / 2

/-- Width of the intermediate canvas (line 44). -/
def total_width (resample : Img → ℕ → ℕ → Img) (a logo : Img) : ℕ :=
  (frame a).width + logo_overlap_x resample logo + canvas_padding * 2

/-- Height of the intermediate canvas (line 45). -/
def total_height (resample : Img → ℕ → ℕ → Img) (a logo : Img) : ℕ :=
  (frame a).height + logo_overlap_y resample logo + canvas_padding * 2

/-- Horizontal paste position of the frame on the canvas (line 50). -/
def window_x : ℕ := canvas_padding

/-- Vertical paste position of the frame on the canvas (line 51). -/
def window_y (resample : Img → ℕ → ℕ → Img) (logo : Img) : ℕ :=
  canvas_padding + logo_overlap_y resample logo

/-- Canvas with the frame pasted on it (lines 47 to 52). -/
def canvasFrame (resample : Img → ℕ → ℕ → Img) (a logo : Img) : Img :=
  paste (imageNew (total_width resample a logo) (total_height resample a logo) clear)
    (frame a) (window_x : ℤ) (window_y resample logo : ℤ)

/-- Horizontal paste position of the logo (line 56); may be negative for a
very small screenshot and a wide logo, in which case Pillow clips. -/
def logo_x (resample : Img → ℕ → ℕ → Img) (a logo : Img) : ℤ :=
  (window_x : ℤ) + ((frame a).width : ℤ) - (logo_overlap_x resample logo : ℤ)

/-- Vertical paste position of the logo (line 57). -/
def logo_y (resample : Img → ℕ → ℕ → Img) (logo : Img) : ℤ :=
  (window_y resample logo : ℤ) - (logo_overlap_y resample logo : ℤ)

/-- Fully composited canvas, frame and logo pasted (line 58). -/
def canvasAll (resample : Img → ℕ → ℕ → Img) (a logo : Img) : Img :=
  paste (canvasFrame resample a logo) (logo_scaled resample logo)
    (logo_x resample a logo) (logo_y resample logo)

/-- Bounding box with exclusive right and lower edges, as returned by
Image.getbbox. -/
structure BBox where
  x0 : ℕ
  y0 : ℕ
  x1 : ℕ
  y1 : ℕ
deriving DecidableEq, Repr

/-- Coordinates of the pixels with nonzero alpha, scanned row by row. -/
def contentList (img : Img) : List (ℕ × ℕ) :=
  (List.range img.height).flatMap fun y =>
    (List.range img.width).filterMap fun x =>
      if (img.pixel x y).a ≠ 0 then some (x, y) else none

/-- Bounding box of a list of coordinates: none when the list is empty. -/
def bboxOfList (l : List (ℕ × ℕ)) : Option BBox :=
  match l with
  | [] => none
  | p :: ps =>
    some ⟨(ps.map Prod.fst).foldl min p.1, (ps.map Prod.snd).foldl min p.2,
          (ps.map Prod.fst).foldl max p.1 + 1, (ps.map Prod.snd).foldl max p.2 + 1⟩

/-- Model of Image.getbbox on an RGBA image: bounding box of the pixels that
are not fully transparent, or none when every pixel is. -/
def getbbox (img : Img) : Option BBox := bboxOfList (contentList img)

/-- Model of Image.crop with a box inside the image. -/
def cropImg (img : Img) (bb : BBox) : Img :=
  ⟨bb.x1 - bb.x0, bb.y1 - bb.y0, fun x y => img.pixel (bb.x0 + x) (bb.y0 + y)⟩

/-- Crop-and-pad step (lines 63 to 68): the cropped canvas pasted
final_padding pixels from every edge of a fresh transparent canvas. -/
def padCrop (c : Img) : Img :=
  paste (imageNew (c.width + final_padding * 2) (c.height + final_padding * 2) clear)
    c (final_padding : ℤ) (final_padding : ℤ)

/-- Image saved by the script (lines 60 to 72): the canvas cropped to its
content bounding box and framed by final_padding, or the canvas unchanged
when the bounding box is empty. -/
def finalImage (resample : Img → ℕ → ℕ → Img) (a logo : Img) : Img :=
  match getbbox (canvasAll resample a logo) with
  | none => canvasAll resample a logo
  | some bb => padCrop (cropImg (canvasAll resample a logo) bb)

/-! ## External effects of the script -/

/-- Path of the screenshot (line 12). -/
def screenshot_path : String := "media/raw_screenshot.png"

/-- Path of the logo (line 13). -/
def logo_path : String := "media/logo.png"

/-- Path of the saved output (line 71). -/
def output_path : String := "/Users/filipstrand/Desktop/combined_transparent.png"

/-- Format string passed to save (line 72). -/
def png_format : String := "PNG"

/-- Message printed after saving (line 73). -/
def saved_message : String := "Saved combined image to " ++ output_path

/-- Externally observable effect of one step of the script. -/
inductive Effect where
  | readFile (path : String)
  | writeFile (path : String) (format : String)
  | printLine (msg : String)
deriving DecidableEq, Repr

/-- Path read by a read effect. -/
def readOf (e : Effect) : Option String :=
  match e with
  | .readFile p => some p
  | _ => none

/-- Path and format written by a write effect. -/
def writeOf (e : Effect) : Option (String × String) :=
  match e with
  | .writeFile p f => some (p, f)
  | _ => none

/-- Saving step of the script (lines 71 to 73), modelled as atomic: a failed
save records nothing on disk. -/
def runSave {E : Type} (saveFs : String → Img → Except E Unit) (img : Img) :
    Except E Unit × List Effect :=
  match saveFs output_path img with
  | .error e => (.error e, [.readFile screenshot_path, .readFile logo_path])
  | .ok _ =>
    (.ok (), [.readFile screenshot_path, .readFile logo_path,
              .writeFile output_path png_format, .printLine saved_message])

/-- Rest of the script once the screenshot has been opened (lines 13 to 73). -/
def runWithScreenshot {E : Type} (fs : String → Except E Img)
    (resample : Img → ℕ → ℕ → Img) (saveFs : String → Img → Except E Unit)
    (a : Img) : Except E Unit × List Effect :=
  match fs logo_path with
  | .error e => (.error e, [.readFile screenshot_path, .readFile logo_path])
  | .ok logo => runSave saveFs (finalImage resample a logo)

/-- Model of the combine procedure with its external effects. Opening and
decoding is a fallible map from paths to images, saving is a fallible write
modelled as atomic. The script has no exception-catching construct, so each
failure short-circuits the rest and is returned unchanged, together with the
effects performed so far. -/
def combineRun {E : Type} (fs : String → Except E Img)
    (resample : Img → ℕ → ℕ → Img) (saveFs : String → Img → Except E Unit) :
    Except E Unit × List Effect :=
  match fs screenshot_path with
  | .error e => (.error e, [.readFile screenshot_path])
  | .ok a => runWithScreenshot fs resample saveFs a

/-! ## Concrete fixtures used by the witnesses -/

/-- Nearest-neighbor resampling kernel, a concrete instance of the resample
parameter: it has the contracted output size and reads source pixels in
range. -/
def resampleNN : Img → ℕ → ℕ → Img := fun img w h =>
  ⟨w, h, fun x y =>
    if img.width = 0 ∨ img.height = 0 then clear
    else img.pixel (min (x * img.width / w) (img.width - 1))
      (min (y * img.height / h) (img.height - 1))⟩

/-- One-pixel screenshot fixture. -/
def aTest : Img := imageNew 1 1 ⟨1, 2, 3, 4⟩

/-- One-pixel logo fixture. -/
def logoTest : Img := imageNew 1 1 ⟨5, 6, 7, 8⟩

/-- Wide logo fixture whose thumbnail cannot preserve the aspect ratio
exactly. -/
def logoBig : Img := imageNew 1300 651 ⟨9, 9, 9, 255⟩

/-- Filesystem fixture on which every open succeeds. -/
def fsTest : String → Except Unit Img := fun p =>
  if p = screenshot_path then .ok aTest else .ok logoTest

/-- Filesystem fixture on which every open fails. -/
def fsErr : String → Except Unit Img := fun _ => .error ()

/-- Save fixture that always succeeds. -/
def saveTest : String → Img → Except Unit Unit := fun _ _ => .ok ()

/-! ## Basic unfolding lemmas -/

lemma paste_width (dst src : Img) (px py : ℤ) : (paste dst src px py).width = dst.width := rfl

lemma paste_height (dst src : Img) (px py : ℤ) : (paste dst src px py).height = dst.height := rfl

lemma paste_pixel (dst src : Img) (px py : ℤ) (x y : ℕ) :
    (paste dst src px py).pixel x y =
      if px ≤ (x : ℤ) ∧ (x : ℤ) < px + (src.width : ℤ) ∧
         py ≤ (y : ℤ) ∧ (y : ℤ) < py + (src.height : ℤ) then
        blendPixel (src.pixel ((x : ℤ) - px).toNat ((y : ℤ) - py).toNat).a
          (dst.pixel x y) (src.pixel ((x : ℤ) - px).toNat ((y : ℤ) - py).toNat)
      else dst.pixel x y := rfl

lemma blendPixel_a (m : ℕ) (d s : RGBA) : (blendPixel m d s).a = blendC m d.a s.a := rfl

lemma a_rounded_width (a : Img) : (a_rounded a).width = a.width := rfl

lemma a_rounded_height (a : Img) : (a_rounded a).height = a.height := rfl

lemma a_rounded_pixel (a : Img) (x y : ℕ) :
    (a_rounded a).pixel x y =
      ⟨(a.pixel x y).r, (a.pixel x y).g, (a.pixel x y).b,
       if inRoundedRect a.width a.height 10 x y then 255 else 0⟩ := rfl

lemma frameDrawn_pixel (a : Img) (x y : ℕ) :
    (frameDrawn a).pixel x y =
      if inRoundedRect (a.width + padding_x * 2) (a.height + padding_top + padding_bottom)
          frame_radius x y then bg_color
      else clear := rfl

lemma frame_width (a : Img) : (frame a).width = a.width + padding_x * 2 := rfl

lemma frame_height (a : Img) : (frame a).height = a.height + padding_top + padding_bottom := rfl

lemma canvasAll_width (resample : Img → ℕ → ℕ → Img) (a logo : Img) :
    (canvasAll resample a logo).width = total_width resample a logo := rfl

lemma canvasAll_height (resample : Img → ℕ → ℕ → Img) (a logo : Img) :
    (canvasAll resample a logo).height = total_height resample a logo := rfl

/-- Pixel of a paste at an in-region point given by an offset from the paste
position. -/
lemma paste_pixel_in (dst src : Img) (px py : ℤ) (i j : ℕ)
    (hi : i < src.width) (hj : j < src.height)
    (hx : 0 ≤ px + (i : ℤ)) (hy : 0 ≤ py + (j : ℤ)) :
    (paste dst src px py).pixel (px + (i : ℤ)).toNat (py + (j : ℤ)).toNat =
      blendPixel (src.pixel i j).a
        (dst.pixel (px + (i : ℤ)).toNat (py + (j : ℤ)).toNat) (src.pixel i j) := by
  rw [paste_pixel, if_pos (by constructor <;> [omega; (constructor <;> [omega; (constructor <;> omega)])])]
  have h1 : (((px + (i : ℤ)).toNat : ℤ) - px).toNat = i := by omega
  have h2 : (((py + (j : ℤ)).toNat : ℤ) - py).toNat = j := by omega
  rw [h1, h2]

/-- Specialization of paste_pixel_in to natural paste positions. -/
lemma paste_pixel_in_nat (dst src : Img) (p q i j : ℕ)
    (hi : i < src.width) (hj : j < src.height) :
    (paste dst src (p : ℤ) (q : ℤ)).pixel (p + i) (q + j) =
      blendPixel (src.pixel i j).a (dst.pixel (p + i) (q + j)) (src.pixel i j) := by
  have h := paste_pixel_in dst src (p : ℤ) (q : ℤ) i j hi hj (by omega) (by omega)
  have e1 : ((p : ℤ) + (i : ℤ)).toNat = p + i := by omega
  have e2 : ((q : ℤ) + (j : ℤ)).toNat = q + j := by omega
  rw [e1, e2] at h
  exact h

/-! ## Blend arithmetic -/

lemma muldiv255_zero_right (x : ℕ) : muldiv255 x 0 = 0 := by
  simp [muldiv255]

/-- Blending any source over a fully opaque destination keeps the band at
least 1 when the mask is the alpha of the source itself. -/
lemma one_le_blendC_self (m : ℕ) : 1 ≤ blendC m 255 m := by
  unfold blendC
  rcases le_or_lt m 254 with h | h
  · have h1 : 1 ≤ muldiv255 255 (255 - m) := by unfold muldiv255; omega
    omega
  · rcases Nat.lt_or_ge m 256 with h2 | h2
    · have hm : m = 255 := by omega
      subst hm
      decide
    · have hmm : 256 * 256 ≤ m * m := Nat.mul_le_mul h2 h2
      have h1 : 1 ≤ muldiv255 m m := by unfold muldiv255; omega
      omega

/-! ## The rounded rectangle contains its center -/

lemma effRadius_le_half_w (w h r : ℕ) : effRadius w h r ≤ w / 2 :=
  le_trans (Nat.min_le_right _ _) (Nat.min_le_left _ _)

lemma effRadius_le_half_h (w h r : ℕ) : effRadius w h r ≤ h / 2 :=
  le_trans (Nat.min_le_right _ _) (Nat.min_le_right _ _)

lemma inRoundedRect_center (w h r : ℕ) : inRoundedRect w h r (w / 2) (h / 2) := by
  have hw := effRadius_le_half_w w h r
  have hh := effRadius_le_half_h w h r
  refine ⟨by omega, by omega, ?_, ?_, ?_, ?_⟩ <;> (intro hc; omega)

/-! ## An opaque pixel survives the whole pipeline -/

lemma frameDrawn_alpha_center (a : Img) :
    ((frameDrawn a).pixel ((a.width + padding_x * 2) / 2)
      ((a.height + padding_top + padding_bottom) / 2)).a = 255 := by
  rw [frameDrawn_pixel, if_pos (inRoundedRect_center _ _ _)]
  rfl

lemma frame_alpha_center (a : Img) (hw : 1 ≤ a.width) (hh : 1 ≤ a.height) :
    ((frame a).pixel ((a.width + padding_x * 2) / 2)
      ((a.height + padding_top + padding_bottom) / 2)).a = 255 := by
  have hpx : padding_x = 40 := rfl
  have hpt : padding_top = 40 := rfl
  have hpb : padding_bottom = 40 := rfl
  obtain ⟨i, hie, hilt⟩ :
      ∃ i, (a.width + padding_x * 2) / 2 = padding_x + i ∧ i < a.width :=
    ⟨(a.width + padding_x * 2) / 2 - padding_x, by omega, by omega⟩
  obtain ⟨j, hje, hjlt⟩ :
      ∃ j, (a.height + padding_top + padding_bottom) / 2 = padding_top + j ∧ j < a.height :=
    ⟨(a.height + padding_top + padding_bottom) / 2 - padding_top, by omega, by omega⟩
  rw [hie, hje]
  unfold frame
  rw [paste_pixel_in_nat _ _ _ _ i j (by rw [a_rounded_width]; omega)
    (by rw [a_rounded_height]; omega)]
  rw [blendPixel_a, a_rounded_pixel, frameDrawn_pixel, ← hie, ← hje,
    if_pos (inRoundedRect_center _ _ _)]
  by_cases hin : inRoundedRect a.width a.height 10 i j
  · rw [if_pos hin]
    show blendC 255 bg_color.a 255 = 255
    decide
  · rw [if_neg hin]
    show blendC 0 bg_color.a 0 = 255
    decide

lemma canvasFrame_alpha_center (resample : Img → ℕ → ℕ → Img) (a logo : Img)
    (hw : 1 ≤ a.width) (hh : 1 ≤ a.height) :
    ((canvasFrame resample a logo).pixel
      (window_x + (a.width + padding_x * 2) / 2)
      (window_y resample logo + (a.height + padding_top + padding_bottom) / 2)).a = 255 := by
  unfold canvasFrame
  rw [paste_pixel_in_nat _ _ _ _ _ _ (by rw [frame_width]; omega)
    (by rw [frame_height]; omega)]
  rw [blendPixel_a, frame_alpha_center a hw hh]
  have : ((imageNew (total_width resample a logo) (total_height resample a logo)
      clear).pixel (window_x + (a.width + padding_x * 2) / 2)
      (window_y resample logo + (a.height + padding_top + padding_bottom) / 2)).a = 0 := rfl
  rw [this]
  decide

lemma canvasAll_alpha_center (resample : Img → ℕ → ℕ → Img) (a logo : Img)
    (hw : 1 ≤ a.width) (hh : 1 ≤ a.height) :
    1 ≤ ((canvasAll resample a logo).pixel
      (window_x + (a.width + padding_x * 2) / 2)
      (window_y resample logo + (a.height + padding_top + padding_bottom) / 2)).a := by
  unfold canvasAll
  rw [paste_pixel]
  split_ifs with hc
  · rw [blendPixel_a, canvasFrame_alpha_center resample a logo hw hh]
    exact one_le_blendC_self _
  · rw [canvasFrame_alpha_center resample a logo hw hh]
    omega

/-! ## Bounding box facts -/

lemma mem_contentList (img : Img) (x y : ℕ) (hx : x < img.width) (hy : y < img.height)
    (ha : (img.pixel x y).a ≠ 0) : (x, y) ∈ contentList img := by
  unfold contentList
  rw [List.mem_flatMap]
  exact ⟨y, List.mem_range.mpr hy,
    List.mem_filterMap.mpr ⟨x, List.mem_range.mpr hx, by rw [if_pos ha]⟩⟩

lemma contentList_mem_lt {img : Img} {p : ℕ × ℕ} (h : p ∈ contentList img) :
    p.1 < img.width ∧ p.2 < img.height := by
  unfold contentList at h
  rw [List.mem_flatMap] at h
  obtain ⟨y, hy, hx⟩ := h
  rw [List.mem_filterMap] at hx
  obtain ⟨x, hx2, hfx⟩ := hx
  by_cases hc : (img.pixel x y).a ≠ 0
  · rw [if_pos hc] at hfx
    obtain rfl := (Option.some.injEq _ _).mp hfx
    exact ⟨List.mem_range.mp hx2, List.mem_range.mp hy⟩
  · rw [if_neg hc] at hfx
    cases hfx

lemma getbbox_isSome_of_mem {img : Img} {p : ℕ × ℕ} (h : p ∈ contentList img) :
    ∃ bb, getbbox img = some bb := by
  rcases hc : contentList img with _ | ⟨q, qs⟩
  · rw [hc] at h
    cases h
  · refine ⟨⟨(qs.map Prod.fst).foldl min q.1, (qs.map Prod.snd).foldl min q.2,
        (qs.map Prod.fst).foldl max q.1 + 1, (qs.map Prod.snd).foldl max q.2 + 1⟩, ?_⟩
    unfold getbbox
    rw [hc]
    rfl

lemma foldl_max_lt {l : List ℕ} {d n : ℕ} (hd : d < n) (h : ∀ x ∈ l, x < n) :
    l.foldl max d < n := by
  induction l generalizing d with
  | nil => exact hd
  | cons a t ih =>
    exact ih (Nat.max_lt.mpr ⟨hd, h a (List.mem_cons_self a t)⟩)
      fun x hx => h x (List.mem_cons_of_mem _ hx)

lemma getbbox_le {img : Img} {bb : BBox} (h : getbbox img = some bb) :
    bb.x1 ≤ img.width ∧ bb.y1 ≤ img.height := by
  unfold getbbox bboxOfList at h
  rcases hc : contentList img with _ | ⟨p, ps⟩
  · rw [hc] at h
    cases h
  · rw [hc] at h
    obtain rfl := (Option.some.injEq _ _).mp h
    have hp : p.1 < img.width ∧ p.2 < img.height :=
      contentList_mem_lt (by rw [hc]; exact List.mem_cons_self p ps)
    constructor
    · have : (ps.map Prod.fst).foldl max p.1 < img.width := by
        apply foldl_max_lt hp.1
        intro x hx
        obtain ⟨q, hq, rfl⟩ := List.mem_map.mp hx
        exact (contentList_mem_lt (by rw [hc]; exact List.mem_cons_of_mem _ hq)).1
      simpa using this
    · have : (ps.map Prod.snd).foldl max p.2 < img.height := by
        apply foldl_max_lt hp.2
        intro x hx
        obtain ⟨q, hq, rfl⟩ := List.mem_map.mp hx
        exact (contentList_mem_lt (by rw [hc]; exact List.mem_cons_of_mem _ hq)).2
      simpa using this

lemma canvas_center_nonzero (resample : Img → ℕ → ℕ → Img) (a logo : Img)
    (hw : 1 ≤ a.width) (hh : 1 ≤ a.height) :
    window_x + (a.width + padding_x * 2) / 2 < (canvasAll resample a logo).width ∧
    window_y resample logo + (a.height + padding_top + padding_bottom) / 2 <
      (canvasAll resample a logo).height ∧
    ((canvasAll resample a logo).pixel (window_x + (a.width + padding_x * 2) / 2)
      (window_y resample logo + (a.height + padding_top + padding_bottom) / 2)).a ≠ 0 := by
  refine ⟨?_, ?_, ?_⟩
  · rw [canvasAll_width]
    unfold total_width window_x canvas_padding padding_x
    rw [frame_width]
    have : padding_x = 40 := rfl
    omega
  · rw [canvasAll_height]
    unfold total_height window_y canvas_padding padding_top padding_bottom
    rw [frame_height]
    have h1 : padding_top = 40 := rfl
    have h2 : padding_bottom = 40 := rfl
    omega
  · have := canvasAll_alpha_center resample a logo hw hh
    omega

lemma canvas_bbox_some (resample : Img → ℕ → ℕ → Img) (a logo : Img)
    (hw : 1 ≤ a.width) (hh : 1 ≤ a.height) :
    ∃ bb, getbbox (canvasAll resample a logo) = some bb := by
  obtain ⟨h1, h2, h3⟩ := canvas_center_nonzero resample a logo hw hh
  exact getbbox_isSome_of_mem (mem_contentList _ _ _ h1 h2 h3)

lemma finalImage_of_bbox {resample : Img → ℕ → ℕ → Img} {a logo : Img} {bb : BBox}
    (h : getbbox (canvasAll resample a logo) = some bb) :
    finalImage resample a logo = padCrop (cropImg (canvasAll resample a logo) bb) := by
  unfold finalImage
  rw [h]

/-! ## Extensional equality of images

Two images agree observationally when they have the same size and the same
pixels inside that size; the pixel functions may differ outside. Every stage
of the pipeline respects this relation, which yields the determinism
property. -/

/-- Same size and same pixel content inside the size. -/
def Img.EqOn (p q : Img) : Prop :=
  p.width = q.width ∧ p.height = q.height ∧
  ∀ x y, x < p.width → y < p.height → p.pixel x y = q.pixel x y

lemma eqOn_refl (p : Img) : Img.EqOn p p := ⟨rfl, rfl, fun _ _ _ _ => rfl⟩

lemma eqOn_of_eq {p q : Img} (h : p = q) : Img.EqOn p q := h ▸ eqOn_refl p

lemma imageNew_congr {w wq h hq : ℕ} (c : RGBA) (hw : w = wq) (hh : h = hq) :
    Img.EqOn (imageNew w h c) (imageNew wq hq c) := by
  subst hw
  subst hh
  exact eqOn_refl _

lemma paste_congr {d dq s sq : Img} (px py : ℤ) (hd : Img.EqOn d dq)
    (hs : Img.EqOn s sq) : Img.EqOn (paste d s px py) (paste dq sq px py) := by
  obtain ⟨hdw, hdh, hdp⟩ := hd
  obtain ⟨hsw, hsh, hsp⟩ := hs
  refine ⟨hdw, hdh, ?_⟩
  intro x y hx hy
  rw [paste_pixel, paste_pixel, ← hsw, ← hsh]
  split_ifs with hc
  · have h1 : ((x : ℤ) - px).toNat < s.width := by omega
    have h2 : ((y : ℤ) - py).toNat < s.height := by omega
    rw [hsp _ _ h1 h2, hdp x y hx hy]
  · exact hdp x y hx hy

lemma a_rounded_congr {a aq : Img} (h : Img.EqOn a aq) :
    Img.EqOn (a_rounded a) (a_rounded aq) := by
  obtain ⟨hw, hh, hp⟩ := h
  refine ⟨hw, hh, ?_⟩
  intro x y hx hy
  rw [a_rounded_pixel, a_rounded_pixel, hp x y hx hy, hw, hh]

lemma frameDrawn_congr {a aq : Img} (h : Img.EqOn a aq) : frameDrawn a = frameDrawn aq := by
  unfold frameDrawn frame_size
  rw [h.1, h.2.1]

lemma frame_congr {a aq : Img} (h : Img.EqOn a aq) : Img.EqOn (frame a) (frame aq) := by
  unfold frame
  exact paste_congr _ _ (eqOn_of_eq (frameDrawn_congr h)) (a_rounded_congr h)

lemma logo_scaled_congr {resample : Img → ℕ → ℕ → Img}
    (hres : ∀ p q w h, Img.EqOn p q → Img.EqOn (resample p w h) (resample q w h))
    {l lq : Img} (h : Img.EqOn l lq) :
    Img.EqOn (logo_scaled resample l) (logo_scaled resample lq) := by
  unfold logo_scaled
  rw [h.1, h.2.1]
  split_ifs with hc
  · exact h
  · exact hres _ _ _ _ h

lemma flatMap_congr {α β : Type} {l : List α} {f g : α → List β}
    (h : ∀ x ∈ l, f x = g x) : l.flatMap f = l.flatMap g := by
  induction l with
  | nil => rfl
  | cons a t ih =>
    simp only [List.flatMap_cons]
    rw [h a (List.mem_cons_self a t), ih fun x hx => h x (List.mem_cons_of_mem _ hx)]

lemma filterMap_congr {α β : Type} {l : List α} {f g : α → Option β}
    (h : ∀ x ∈ l, f x = g x) : l.filterMap f = l.filterMap g := by
  induction l with
  | nil => rfl
  | cons a t ih =>
    simp only [List.filterMap_cons]
    rw [h a (List.mem_cons_self a t), ih fun x hx => h x (List.mem_cons_of_mem _ hx)]

lemma contentList_congr {p q : Img} (h : Img.EqOn p q) : contentList p = contentList q := by
  obtain ⟨hw, hh, hp⟩ := h
  unfold contentList
  rw [← hw, ← hh]
  apply flatMap_congr
  intro y hy
  apply filterMap_congr
  intro x hx
  rw [hp x y (List.mem_range.mp hx) (List.mem_range.mp hy)]

/-! ## Thumbnail size bounds -/

/-- A value whose product with the divisor is within one divisor of the
target is within one pixel of the exact quotient. -/
lemma round_clamp_bounds {X q d : ℕ} (hC1 : q < X * d + d) (hC2 : X * d < q + d) :
    |(X : ℤ) * d - q| < (d : ℤ) := by
  rw [abs_lt]
  have c1 : (q : ℤ) < X * d + d := by exact_mod_cast hC1
  have c2 : (X : ℤ) * d < q + d := by exact_mod_cast hC2
  constructor <;> linarith

/-- Bounds for the clamped rounding max V 1 of a quotient q / d when V is
the floor or the ceiling of q / d: its product with d stays within one
divisor of q, and it stays in [1, 650] when q ≤ 650 d. -/
lemma max_round_facts {V q d : ℕ} (hq : 1 ≤ q) (hd : 1 ≤ d) (hVle : V ≤ 650)
    (hA : V * d < q + d) (hB : q < V * d + d) :
    q < max V 1 * d + d ∧ max V 1 * d < q + d ∧ max V 1 ≤ 650 ∧ 1 ≤ max V 1 := by
  rcases Nat.eq_zero_or_pos V with hz | hp
  · rw [hz] at hB ⊢
    have h0 : (0 : ℕ) * d = 0 := by omega
    rw [h0] at hB
    have hm : max 0 1 = 1 := rfl
    rw [hm]
    omega
  · have hm : max V 1 = V := Nat.max_eq_left (by omega)
    rw [hm]
    exact ⟨hB, hA, hVle, hp⟩

/-- The thumbnail size of an image that does not fit the 650 box: both
dimensions are between 1 and 650, and the cross product with the original
size is within max w h of exact aspect preservation (one pixel of rounding
on the constrained dimension). -/
lemma thumbnailSize_spec (w h : ℕ) (hw : 1 ≤ w) (hh : 1 ≤ h)
    (hout : ¬(w ≤ 650 ∧ h ≤ 650)) :
    1 ≤ (thumbnailSize 650 650 w h).1 ∧ (thumbnailSize 650 650 w h).1 ≤ 650 ∧
    1 ≤ (thumbnailSize 650 650 w h).2 ∧ (thumbnailSize 650 650 w h).2 ≤ 650 ∧
    |((thumbnailSize 650 650 w h).1 : ℤ) * (h : ℤ) -
      (w : ℤ) * ((thumbnailSize 650 650 w h).2 : ℤ)| < ((max w h : ℕ) : ℤ) := by
  unfold thumbnailSize
  rw [if_neg hout]
  by_cases hbr : w * 650 ≤ 650 * h
  · rw [if_pos hbr]
    dsimp only
    have hfl1 : 650 * w / h * h ≤ 650 * w := Nat.div_mul_le_self _ _
    have hfl2 : 650 * w < 650 * w / h * h + h := by
      have hm := Nat.div_add_mod' (650 * w) h
      have hr : 650 * w % h < h := Nat.mod_lt _ (by omega)
      omega
    have hflle : 650 * w / h ≤ 650 := Nat.div_le_of_le_mul (by omega)
    have hce1 : (650 * w + h - 1) / h * h ≤ 650 * w + h - 1 := Nat.div_mul_le_self _ _
    have hce2 : 650 * w + h - 1 < (650 * w + h - 1) / h * h + h := by
      have hm := Nat.div_add_mod' (650 * w + h - 1) h
      have hr : (650 * w + h - 1) % h < h := Nat.mod_lt _ (by omega)
      omega
    have hcele : (650 * w + h - 1) / h ≤ 650 := by
      have : (650 * w + h - 1) / h < 651 :=
        (Nat.div_lt_iff_lt_mul (by omega)).mpr (by omega)
      omega
    have hX : (if Nat.dist (w * 650) (650 * w / h * h) ≤
          Nat.dist (w * 650) ((650 * w + h - 1) / h * h)
        then 650 * w / h else (650 * w + h - 1) / h) = 650 * w / h ∨
        (if Nat.dist (w * 650) (650 * w / h * h) ≤
          Nat.dist (w * 650) ((650 * w + h - 1) / h * h)
        then 650 * w / h else (650 * w + h - 1) / h) = (650 * w + h - 1) / h := by
      split_ifs <;> simp
    obtain hX | hX := hX <;> rw [hX]
    · obtain ⟨hc1, hc2, hle, hge⟩ := max_round_facts (V := 650 * w / h) (q := 650 * w)
        (by omega) hh hflle (by omega) (by omega)
      refine ⟨hge, hle, by omega, by omega, ?_⟩
      have habs : |((max (650 * w / h) 1 : ℕ) : ℤ) * h - ((650 * w : ℕ) : ℤ)| < (h : ℤ) :=
        round_clamp_bounds hc1 hc2
      have hcast : ((650 * w : ℕ) : ℤ) = (w : ℤ) * 650 := by push_cast; ring
      rw [hcast] at habs
      have hmx : (h : ℤ) ≤ ((max w h : ℕ) : ℤ) := by exact_mod_cast le_max_right w h
      calc |((max (650 * w / h) 1 : ℕ) : ℤ) * h - (w : ℤ) * ((650 : ℕ) : ℤ)|
          = |((max (650 * w / h) 1 : ℕ) : ℤ) * h - (w : ℤ) * 650| := by norm_num
        _ < (h : ℤ) := habs
        _ ≤ ((max w h : ℕ) : ℤ) := hmx
    · obtain ⟨hc1, hc2, hle, hge⟩ := max_round_facts (V := (650 * w + h - 1) / h)
        (q := 650 * w) (by omega) hh hcele (by omega) (by omega)
      refine ⟨hge, hle, by omega, by omega, ?_⟩
      have habs : |((max ((650 * w + h - 1) / h) 1 : ℕ) : ℤ) * h -
          ((650 * w : ℕ) : ℤ)| < (h : ℤ) := round_clamp_bounds hc1 hc2
      have hcast : ((650 * w : ℕ) : ℤ) = (w : ℤ) * 650 := by push_cast; ring
      rw [hcast] at habs
      have hmx : (h : ℤ) ≤ ((max w h : ℕ) : ℤ) := by exact_mod_cast le_max_right w h
      calc |((max ((650 * w + h - 1) / h) 1 : ℕ) : ℤ) * h - (w : ℤ) * ((650 : ℕ) : ℤ)|
          = |((max ((650 * w + h - 1) / h) 1 : ℕ) : ℤ) * h - (w : ℤ) * 650| := by norm_num
        _ < (h : ℤ) := habs
        _ ≤ ((max w h : ℕ) : ℤ) := hmx
  · rw [if_neg hbr]
    dsimp only
    have hfl1 : 650 * h / w * w ≤ 650 * h := Nat.div_mul_le_self _ _
    have hfl2 : 650 * h < 650 * h / w * w + w := by
      have hm := Nat.div_add_mod' (650 * h) w
      have hr : 650 * h % w < w := Nat.mod_lt _ (by omega)
      omega
    have hflle : 650 * h / w ≤ 650 := Nat.div_le_of_le_mul (by omega)
    have hce1 : (650 * h + w - 1) / w * w ≤ 650 * h + w - 1 := Nat.div_mul_le_self _ _
    have hce2 : 650 * h + w - 1 < (650 * h + w - 1) / w * w + w := by
      have hm := Nat.div_add_mod' (650 * h + w - 1) w
      have hr : (650 * h + w - 1) % w < w := Nat.mod_lt _ (by omega)
      omega
    have hcele : (650 * h + w - 1) / w ≤ 650 := by
      have : (650 * h + w - 1) / w < 651 :=
        (Nat.div_lt_iff_lt_mul (by omega)).mpr (by omega)
      omega
    have hX : (if 650 * h / w = 0 then 650 * h / w
        else if Nat.dist (w * (650 * h / w)) (650 * h) * ((650 * h + w - 1) / w) ≤
            Nat.dist (w * ((650 * h + w - 1) / w)) (650 * h) * (650 * h / w)
          then 650 * h / w else (650 * h + w - 1) / w) = 650 * h / w ∨
        (if 650 * h / w = 0 then 650 * h / w
        else if Nat.dist (w * (650 * h / w)) (650 * h) * ((650 * h + w - 1) / w) ≤
            Nat.dist (w * ((650 * h + w - 1) / w)) (650 * h) * (650 * h / w)
          then 650 * h / w else (650 * h + w - 1) / w) = (650 * h + w - 1) / w := by
      split_ifs <;> simp
    obtain hX | hX := hX <;> rw [hX]
    · obtain ⟨hc1, hc2, hle, hge⟩ := max_round_facts (V := 650 * h / w) (q := 650 * h)
        (by omega) hw hflle (by omega) (by omega)
      refine ⟨by omega, by omega, hge, hle, ?_⟩
      have habs : |((max (650 * h / w) 1 : ℕ) : ℤ) * w - ((650 * h : ℕ) : ℤ)| < (w : ℤ) :=
        round_clamp_bounds hc1 hc2
      have hmx : (w : ℤ) ≤ ((max w h : ℕ) : ℤ) := by exact_mod_cast le_max_left w h
      have hflip : |((650 : ℕ) : ℤ) * h - (w : ℤ) * ((max (650 * h / w) 1 : ℕ) : ℤ)| =
          |((max (650 * h / w) 1 : ℕ) : ℤ) * w - ((650 * h : ℕ) : ℤ)| := by
        rw [abs_sub_comm]
        congr 1
        push_cast
        ring
      rw [hflip]
      exact lt_of_lt_of_le habs hmx
    · obtain ⟨hc1, hc2, hle, hge⟩ := max_round_facts (V := (650 * h + w - 1) / w)
        (q := 650 * h) (by omega) hw hcele (by omega) (by omega)
      refine ⟨by omega, by omega, hge, hle, ?_⟩
      have habs : |((max ((650 * h + w - 1) / w) 1 : ℕ) : ℤ) * w -
          ((650 * h : ℕ) : ℤ)| < (w : ℤ) := round_clamp_bounds hc1 hc2
      have hmx : (w : ℤ) ≤ ((max w h : ℕ) : ℤ) := by exact_mod_cast le_max_left w h
      have hflip : |((650 : ℕ) : ℤ) * h -
          (w : ℤ) * ((max ((650 * h + w - 1) / w) 1 : ℕ) : ℤ)| =
          |((max ((650 * h + w - 1) / w) 1 : ℕ) : ℤ) * w - ((650 * h : ℕ) : ℤ)| := by
        rw [abs_sub_comm]
        congr 1
        push_cast
        ring
      rw [hflip]
      exact lt_of_lt_of_le habs hmx

lemma cropImg_congr {p q : Img} {bb : BBox} (h : Img.EqOn p q)
    (hx1 : bb.x1 ≤ p.width) (hy1 : bb.y1 ≤ p.height) :
    Img.EqOn (cropImg p bb) (cropImg q bb) := by
  refine ⟨rfl, rfl, ?_⟩
  intro x y hx hy
  have hx2 : x < bb.x1 - bb.x0 := hx
  have hy2 : y < bb.y1 - bb.y0 := hy
  exact h.2.2 _ _ (by omega) (by omega)

/-! ## Evaluation lemmas for the effect model -/

lemma combineRun_err {E : Type} (fs : String → Except E Img)
    (resample : Img → ℕ → ℕ → Img) (saveFs : String → Img → Except E Unit)
    (e : E) (h : fs screenshot_path = .error e) :
    combineRun fs resample saveFs = (.error e, [.readFile screenshot_path]) := by
  unfold combineRun
  rw [h]

lemma combineRun_ok {E : Type} (fs : String → Except E Img)
    (resample : Img → ℕ → ℕ → Img) (saveFs : String → Img → Except E Unit)
    (a : Img) (h : fs screenshot_path = .ok a) :
    combineRun fs resample saveFs = runWithScreenshot fs resample saveFs a := by
  unfold combineRun
  rw [h]

lemma runWithScreenshot_err {E : Type} (fs : String → Except E Img)
    (resample : Img → ℕ → ℕ → Img) (saveFs : String → Img → Except E Unit)
    (a : Img) (e : E) (h : fs logo_path = .error e) :
    runWithScreenshot fs resample saveFs a =
      (.error e, [.readFile screenshot_path, .readFile logo_path]) := by
  unfold runWithScreenshot
  rw [h]

lemma runWithScreenshot_ok {E : Type} (fs : String → Except E Img)
    (resample : Img → ℕ → ℕ → Img) (saveFs : String → Img → Except E Unit)
    (a logo : Img) (h : fs logo_path = .ok logo) :
    runWithScreenshot fs resample saveFs a =
      runSave saveFs (finalImage resample a logo) := by
  unfold runWithScreenshot
  rw [h]

lemma runSave_err {E : Type} (saveFs : String → Img → Except E Unit) (img : Img)
    (e : E) (h : saveFs output_path img = .error e) :
    runSave saveFs img = (.error e, [.readFile screenshot_path, .readFile logo_path]) := by
  unfold runSave
  rw [h]

lemma runSave_ok {E : Type} (saveFs : String → Img → Except E Unit) (img : Img)
    (u : Unit) (h : saveFs output_path img = .ok u) :
    runSave saveFs img =
      (.ok (), [.readFile screenshot_path, .readFile logo_path,
                .writeFile output_path png_format, .printLine saved_message]) := by
  unfold runSave
  rw [h]

/-! ## Facts about the concrete resampling kernel -/

lemma resampleNN_dims : ∀ p u v, (resampleNN p u v).width = u ∧ (resampleNN p u v).height = v :=
  fun _ _ _ => ⟨rfl, rfl⟩

lemma resampleNN_congr : ∀ p q u v, Img.EqOn p q →
    Img.EqOn (resampleNN p u v) (resampleNN q u v) := by
  intro p q u v hpq
  obtain ⟨hw, hh, hp⟩ := hpq
  refine ⟨rfl, rfl, ?_⟩
  intro x y hx hy
  simp only [resampleNN]
  rw [← hw, ← hh]
  split_ifs with hc
  · rfl
  · push_neg at hc
    exact hp _ _ (Nat.lt_of_le_of_lt (Nat.min_le_right _ _) (by omega))
      (Nat.lt_of_le_of_lt (Nat.min_le_right _ _) (by omega))

/-! ## The claims -/

/-- C4: for every screenshot image of size (w, h), the rounded background
frame has size exactly (w + 80, h + 80), 40 pixels of padding on each side,
with the screenshot pasted at offset (40, 40) inside it: every pixel of the
pasted region blends the rounded screenshot over the drawn frame at that
offset. -/
theorem claim_C4 (a : Img) :
    (frame a).width = a.width + 80 ∧ (frame a).height = a.height + 80 ∧
    ∀ i j, i < a.width → j < a.height →
      (frame a).pixel (40 + i) (40 + j) =
        blendPixel ((a_rounded a).pixel i j).a
          ((frameDrawn a).pixel (40 + i) (40 + j)) ((a_rounded a).pixel i j) := by
  refine ⟨rfl, rfl, ?_⟩
  intro i j hi hj
  rw [show (40 : ℕ) + i = padding_x + i from rfl,
    show (40 : ℕ) + j = padding_top + j from rfl]
  unfold frame
  rw [paste_pixel_in_nat _ _ _ _ i j (by rw [a_rounded_width]; omega)
    (by rw [a_rounded_height]; omega)]

/-- Witness for C4 at the one-pixel fixture. -/
theorem claim_C4_witness :
    (frame aTest).width = aTest.width + 80 ∧
    (frame aTest).pixel (40 + 0) (40 + 0) =
      blendPixel ((a_rounded aTest).pixel 0 0).a
        ((frameDrawn aTest).pixel (40 + 0) (40 + 0)) ((a_rounded aTest).pixel 0 0) :=
  ⟨(claim_C4 aTest).1, (claim_C4 aTest).2.2 0 0 (by decide) (by decide)⟩

/-- C5: the intermediate canvas is frame width plus half the scaled logo
width plus 400 wide (and similarly high), and the frame is pasted at
(200, 200 + half the scaled logo height): every pixel of that region blends
the frame over the transparent background. -/
theorem claim_C5 (resample : Img → ℕ → ℕ → Img) (a logo : Img) :
    total_width resample a logo =
      (frame a).width + (logo_scaled resample logo).width / 2 + 400 ∧
    total_height resample a logo =
      (frame a).height + (logo_scaled resample logo).height / 2 + 400 ∧
    ∀ i j, i < (frame a).width → j < (frame a).height →
      (canvasFrame resample a logo).pixel (200 + i)
          (200 + (logo_scaled resample logo).height / 2 + j) =
        blendPixel ((frame a).pixel i j).a clear ((frame a).pixel i j) := by
  refine ⟨rfl, rfl, ?_⟩
  intro i j hi hj
  rw [show (200 : ℕ) + i = window_x + i from rfl,
    show (200 : ℕ) + (logo_scaled resample logo).height / 2 + j =
      window_y resample logo + j from rfl]
  unfold canvasFrame
  rw [paste_pixel_in_nat _ _ _ _ i j hi hj]
  rfl

/-- Witness for C5 at the one-pixel fixtures. -/
theorem claim_C5_witness :
    total_width resampleNN aTest logoTest =
      (frame aTest).width + (logo_scaled resampleNN logoTest).width / 2 + 400 ∧
    (canvasFrame resampleNN aTest logoTest).pixel (200 + 0)
        (200 + (logo_scaled resampleNN logoTest).height / 2 + 0) =
      blendPixel ((frame aTest).pixel 0 0).a clear ((frame aTest).pixel 0 0) :=
  ⟨(claim_C5 resampleNN aTest logoTest).1,
   (claim_C5 resampleNN aTest logoTest).2.2 0 0 (by decide) (by decide)⟩

/-- C3: the scaled logo is pasted overlapping the top-right corner of the
frame by half its dimensions: its paste position is
(window_x + frame width - logo width / 2, window_y - logo height / 2), and
every pixel of the pasted region (when its canvas column is nonnegative,
Pillow clipping the rest) blends the scaled logo over the canvas. -/
theorem claim_C3 (resample : Img → ℕ → ℕ → Img) (a logo : Img) :
    logo_x resample a logo =
      (window_x : ℤ) + ((frame a).width : ℤ) -
        (((logo_scaled resample logo).width / 2 : ℕ) : ℤ) ∧
    logo_y resample logo =
      (window_y resample logo : ℤ) - (((logo_scaled resample logo).height / 2 : ℕ) : ℤ) ∧
    ∀ i j, i < (logo_scaled resample logo).width →
      j < (logo_scaled resample logo).height →
      0 ≤ logo_x resample a logo + (i : ℤ) →
      (canvasAll resample a logo).pixel (logo_x resample a logo + (i : ℤ)).toNat
          (logo_y resample logo + (j : ℤ)).toNat =
        blendPixel ((logo_scaled resample logo).pixel i j).a
          ((canvasFrame resample a logo).pixel (logo_x resample a logo + (i : ℤ)).toNat
            (logo_y resample logo + (j : ℤ)).toNat)
          ((logo_scaled resample logo).pixel i j) := by
  refine ⟨rfl, rfl, ?_⟩
  intro i j hi hj hx
  unfold canvasAll
  exact paste_pixel_in _ _ _ _ i j hi hj hx
    (by unfold logo_y window_y logo_overlap_y; omega)

/-- Witness for C3 at the one-pixel fixtures. -/
theorem claim_C3_witness :
    0 < (logo_scaled resampleNN logoTest).width ∧
    0 ≤ logo_x resampleNN aTest logoTest + ((0 : ℕ) : ℤ) ∧
    (canvasAll resampleNN aTest logoTest).pixel
        (logo_x resampleNN aTest logoTest + ((0 : ℕ) : ℤ)).toNat
        (logo_y resampleNN logoTest + ((0 : ℕ) : ℤ)).toNat =
      blendPixel ((logo_scaled resampleNN logoTest).pixel 0 0).a
        ((canvasFrame resampleNN aTest logoTest).pixel
          (logo_x resampleNN aTest logoTest + ((0 : ℕ) : ℤ)).toNat
          (logo_y resampleNN logoTest + ((0 : ℕ) : ℤ)).toNat)
        ((logo_scaled resampleNN logoTest).pixel 0 0) :=
  ⟨by decide, by decide,
   (claim_C3 resampleNN aTest logoTest).2.2 0 0 (by decide) (by decide) (by decide)⟩

/-- C9: for every pair of input images of positive dimensions the composited
canvas has a pixel with nonzero alpha (the frame fill is fully opaque), so
getbbox returns a box, the crop-and-pad branch is taken and the fallback of
saving the uncropped canvas is unreachable. -/
theorem claim_C9 (resample : Img → ℕ → ℕ → Img) (a logo : Img)
    (hw : 1 ≤ a.width) (hh : 1 ≤ a.height) :
    (∃ x y, x < (canvasAll resample a logo).width ∧
      y < (canvasAll resample a logo).height ∧
      ((canvasAll resample a logo).pixel x y).a ≠ 0) ∧
    ∃ bb, getbbox (canvasAll resample a logo) = some bb ∧
      finalImage resample a logo = padCrop (cropImg (canvasAll resample a logo) bb) := by
  obtain ⟨h1, h2, h3⟩ := canvas_center_nonzero resample a logo hw hh
  refine ⟨⟨_, _, h1, h2, h3⟩, ?_⟩
  obtain ⟨bb, hbb⟩ := canvas_bbox_some resample a logo hw hh
  exact ⟨bb, hbb, finalImage_of_bbox hbb⟩

/-- Witness for C9 at the one-pixel fixtures. -/
theorem claim_C9_witness :
    1 ≤ aTest.width ∧ 1 ≤ aTest.height ∧
    ((∃ x y, x < (canvasAll resampleNN aTest logoTest).width ∧
      y < (canvasAll resampleNN aTest logoTest).height ∧
      ((canvasAll resampleNN aTest logoTest).pixel x y).a ≠ 0) ∧
    ∃ bb, getbbox (canvasAll resampleNN aTest logoTest) = some bb ∧
      finalImage resampleNN aTest logoTest =
        padCrop (cropImg (canvasAll resampleNN aTest logoTest) bb)) :=
  ⟨by decide, by decide, claim_C9 resampleNN aTest logoTest (by decide) (by decide)⟩

/-- C1: for every pair of input images of positive dimensions the saved
image is the content bounding box of the composited canvas plus 100 pixels
of padding on each side (width = bbox width + 200, height = bbox height +
200), and the cropped content is placed exactly 100 pixels from every edge:
pixel (100 + i, 100 + j) of the output blends cropped pixel (i, j) over the
transparent background. -/
theorem claim_C1 (resample : Img → ℕ → ℕ → Img) (a logo : Img)
    (hw : 1 ≤ a.width) (hh : 1 ≤ a.height) :
    ∃ bb, getbbox (canvasAll resample a logo) = some bb ∧
      (finalImage resample a logo).width = bb.x1 - bb.x0 + 200 ∧
      (finalImage resample a logo).height = bb.y1 - bb.y0 + 200 ∧
      ∀ i j, i < bb.x1 - bb.x0 → j < bb.y1 - bb.y0 →
        (finalImage resample a logo).pixel (100 + i) (100 + j) =
          blendPixel ((cropImg (canvasAll resample a logo) bb).pixel i j).a clear
            ((cropImg (canvasAll resample a logo) bb).pixel i j) := by
  obtain ⟨bb, hbb⟩ := canvas_bbox_some resample a logo hw hh
  refine ⟨bb, hbb, ?_, ?_, ?_⟩
  · rw [finalImage_of_bbox hbb]
    rfl
  · rw [finalImage_of_bbox hbb]
    rfl
  · intro i j hi hj
    rw [finalImage_of_bbox hbb,
      show (100 : ℕ) + i = final_padding + i from rfl,
      show (100 : ℕ) + j = final_padding + j from rfl]
    unfold padCrop
    rw [paste_pixel_in_nat _ _ _ _ i j hi hj]
    rfl

/-- Witness for C1 at the one-pixel fixtures. -/
theorem claim_C1_witness :
    1 ≤ aTest.width ∧ 1 ≤ aTest.height ∧
    (∃ bb, getbbox (canvasAll resampleNN aTest logoTest) = some bb ∧
      (finalImage resampleNN aTest logoTest).width = bb.x1 - bb.x0 + 200 ∧
      (finalImage resampleNN aTest logoTest).height = bb.y1 - bb.y0 + 200 ∧
      ∀ i j, i < bb.x1 - bb.x0 → j < bb.y1 - bb.y0 →
        (finalImage resampleNN aTest logoTest).pixel (100 + i) (100 + j) =
          blendPixel ((cropImg (canvasAll resampleNN aTest logoTest) bb).pixel i j).a clear
            ((cropImg (canvasAll resampleNN aTest logoTest) bb).pixel i j)) :=
  ⟨by decide, by decide, claim_C1 resampleNN aTest logoTest (by decide) (by decide)⟩

/-- C10: every pixel in the outer 100 pixel border of the saved image is
fully transparent, because the final canvas is created transparent and the
cropped content is pasted 100 pixels in from every edge. -/
theorem claim_C10 (resample : Img → ℕ → ℕ → Img) (a logo : Img)
    (hw : 1 ≤ a.width) (hh : 1 ≤ a.height) :
    ∃ bb, getbbox (canvasAll resample a logo) = some bb ∧
      ∀ x y, x < (finalImage resample a logo).width →
        y < (finalImage resample a logo).height →
        (x < 100 ∨ y < 100 ∨ (finalImage resample a logo).width ≤ x + 100 ∨
          (finalImage resample a logo).height ≤ y + 100) →
        (finalImage resample a logo).pixel x y = clear := by
  obtain ⟨bb, hbb⟩ := canvas_bbox_some resample a logo hw hh
  refine ⟨bb, hbb, ?_⟩
  intro x y hx hy hborder
  rw [finalImage_of_bbox hbb] at hx hy hborder ⊢
  have hW : (padCrop (cropImg (canvasAll resample a logo) bb)).width =
      (cropImg (canvasAll resample a logo) bb).width + 200 := rfl
  have hH : (padCrop (cropImg (canvasAll resample a logo) bb)).height =
      (cropImg (canvasAll resample a logo) bb).height + 200 := rfl
  have hf : final_padding = 100 := rfl
  unfold padCrop
  rw [paste_pixel]
  split_ifs with hc
  · exfalso
    omega
  · rfl

/-- Witness for C10 at the one-pixel fixtures. -/
theorem claim_C10_witness :
    1 ≤ aTest.width ∧ 1 ≤ aTest.height ∧
    (∃ bb, getbbox (canvasAll resampleNN aTest logoTest) = some bb ∧
      ∀ x y, x < (finalImage resampleNN aTest logoTest).width →
        y < (finalImage resampleNN aTest logoTest).height →
        (x < 100 ∨ y < 100 ∨ (finalImage resampleNN aTest logoTest).width ≤ x + 100 ∨
          (finalImage resampleNN aTest logoTest).height ≤ y + 100) →
        (finalImage resampleNN aTest logoTest).pixel x y = clear) :=
  ⟨by decide, by decide, claim_C10 resampleNN aTest logoTest (by decide) (by decide)⟩

/-- C2: the program is deterministic: two runs on input images with the same
dimensions and the same pixel content (for any resampling kernel that
respects pixel content) produce outputs with identical dimensions and
identical pixel content. -/
theorem claim_C2 (resample : Img → ℕ → ℕ → Img)
    (hres : ∀ p q w h, Img.EqOn p q → Img.EqOn (resample p w h) (resample q w h))
    (a a2 logo logo2 : Img) (ha : Img.EqOn a a2) (hl : Img.EqOn logo logo2) :
    Img.EqOn (finalImage resample a logo) (finalImage resample a2 logo2) := by
  have hfr := frame_congr ha
  have hls := logo_scaled_congr hres hl
  have htw : total_width resample a logo = total_width resample a2 logo2 := by
    unfold total_width logo_overlap_x
    rw [hfr.1, hls.1]
  have hth : total_height resample a logo = total_height resample a2 logo2 := by
    unfold total_height logo_overlap_y
    rw [hfr.2.1, hls.2.1]
  have hwy : window_y resample logo = window_y resample logo2 := by
    unfold window_y logo_overlap_y
    rw [hls.2.1]
  have hlx : logo_x resample a logo = logo_x resample a2 logo2 := by
    unfold logo_x logo_overlap_x
    rw [hfr.1, hls.1]
  have hly : logo_y resample logo = logo_y resample logo2 := by
    unfold logo_y window_y logo_overlap_y
    rw [hls.2.1]
  have hcf : Img.EqOn (canvasFrame resample a logo) (canvasFrame resample a2 logo2) := by
    unfold canvasFrame
    rw [hwy]
    exact paste_congr _ _ (imageNew_congr clear htw hth) hfr
  have hca : Img.EqOn (canvasAll resample a logo) (canvasAll resample a2 logo2) := by
    unfold canvasAll
    rw [hlx, hly]
    exact paste_congr _ _ hcf hls
  have hcl : contentList (canvasAll resample a logo) =
      contentList (canvasAll resample a2 logo2) := contentList_congr hca
  have hbb : getbbox (canvasAll resample a logo) =
      getbbox (canvasAll resample a2 logo2) := by
    unfold getbbox
    rw [hcl]
  rcases hE : getbbox (canvasAll resample a logo) with _ | bb
  · have hE2 : getbbox (canvasAll resample a2 logo2) = none := by
      rw [← hbb]
      exact hE
    unfold finalImage
    rw [hE, hE2]
    exact hca
  · have hE2 : getbbox (canvasAll resample a2 logo2) = some bb := by
      rw [← hbb]
      exact hE
    rw [finalImage_of_bbox hE, finalImage_of_bbox hE2]
    have hle := getbbox_le hE
    have hcrop := cropImg_congr hca hle.1 hle.2
    unfold padCrop
    exact paste_congr _ _ (imageNew_congr clear rfl rfl) hcrop

/-- Witness for C2 at the one-pixel fixtures. -/
theorem claim_C2_witness :
    Img.EqOn aTest aTest ∧ Img.EqOn logoTest logoTest ∧
    Img.EqOn (finalImage resampleNN aTest logoTest) (finalImage resampleNN aTest logoTest) :=
  ⟨eqOn_refl _, eqOn_refl _,
   claim_C2 resampleNN resampleNN_congr aTest aTest logoTest logoTest
     (eqOn_refl _) (eqOn_refl _)⟩

/-- C6 as amended: for every logo image of positive dimensions the logo used
for compositing fits the 650 by 650 box with both dimensions at least 1, a
logo already inside the box is used unchanged, the scaling operates on a
copy, and each dimension is within one pixel of exact aspect-ratio
preservation: the cross product of the sizes differs by less than
max width height. -/
theorem claim_C6 (resample : Img → ℕ → ℕ → Img)
    (hdims : ∀ p u v, (resample p u v).width = u ∧ (resample p u v).height = v)
    (logo : Img) (hw : 1 ≤ logo.width) (hh : 1 ≤ logo.height) :
    (1 ≤ (logo_scaled resample logo).width ∧ (logo_scaled resample logo).width ≤ 650 ∧
     1 ≤ (logo_scaled resample logo).height ∧ (logo_scaled resample logo).height ≤ 650) ∧
    (logo.width ≤ 650 → logo.height ≤ 650 → logo_scaled resample logo = logo) ∧
    Img.copy logo = logo ∧
    |((logo_scaled resample logo).width : ℤ) * (logo.height : ℤ) -
      (logo.width : ℤ) * ((logo_scaled resample logo).height : ℤ)| <
      ((max logo.width logo.height : ℕ) : ℤ) := by
  by_cases hfit : logo.width ≤ 650 ∧ logo.height ≤ 650
  · have hls : logo_scaled resample logo = logo := by
      unfold logo_scaled
      rw [if_pos hfit]
      rfl
    rw [hls]
    refine ⟨⟨hw, hfit.1, hh, hfit.2⟩, fun _ _ => rfl, rfl, ?_⟩
    rw [sub_self, abs_zero]
    have hmx : 0 < max logo.width logo.height :=
      lt_of_lt_of_le hw (le_max_left _ _)
    exact_mod_cast hmx
  · have hw2 : (logo_scaled resample logo).width =
        (thumbnailSize 650 650 logo.width logo.height).1 := by
      unfold logo_scaled
      rw [if_neg hfit]
      exact (hdims _ _ _).1
    have hh2 : (logo_scaled resample logo).height =
        (thumbnailSize 650 650 logo.width logo.height).2 := by
      unfold logo_scaled
      rw [if_neg hfit]
      exact (hdims _ _ _).2
    obtain ⟨s1, s2, s3, s4, s5⟩ := thumbnailSize_spec logo.width logo.height hw hh hfit
    rw [hw2, hh2]
    exact ⟨⟨s1, s2, s3, s4⟩, fun h1 h2 => absurd ⟨h1, h2⟩ hfit, rfl, s5⟩

/-- Witness for C6 at the wide logo fixture. -/
theorem claim_C6_witness :
    (∀ p u v, (resampleNN p u v).width = u ∧ (resampleNN p u v).height = v) ∧
    1 ≤ logoBig.width ∧ 1 ≤ logoBig.height ∧
    ((1 ≤ (logo_scaled resampleNN logoBig).width ∧
      (logo_scaled resampleNN logoBig).width ≤ 650 ∧
      1 ≤ (logo_scaled resampleNN logoBig).height ∧
      (logo_scaled resampleNN logoBig).height ≤ 650) ∧
     (logoBig.width ≤ 650 → logoBig.height ≤ 650 →
       logo_scaled resampleNN logoBig = logoBig) ∧
     Img.copy logoBig = logoBig ∧
     |((logo_scaled resampleNN logoBig).width : ℤ) * (logoBig.height : ℤ) -
       (logoBig.width : ℤ) * ((logo_scaled resampleNN logoBig).height : ℤ)| <
       ((max logoBig.width logoBig.height : ℕ) : ℤ)) :=
  ⟨resampleNN_dims, by decide, by decide,
   claim_C6 resampleNN resampleNN_dims logoBig (by decide) (by decide)⟩

/-- Counterexample to C6 as stated: a 1300 by 651 logo is scaled to
650 by 326, whose aspect ratio differs from 1300 by 651
(650 times 651 is not 1300 times 326), so the aspect ratio is not exactly
preserved. -/
theorem claim_C6_counterexample :
    thumbnailSize 650 650 logoBig.width logoBig.height = (650, 326) ∧
    (logo_scaled resampleNN logoBig).width * logoBig.height ≠
      logoBig.width * (logo_scaled resampleNN logoBig).height := by
  constructor
  · decide
  · decide

/-- C7: no error is handled anywhere: a failure while opening either input
or while saving propagates out unchanged, and in that case no write is
recorded, so the output file reflects no partially completed composite. -/
theorem claim_C7 {E : Type} (fs : String → Except E Img)
    (resample : Img → ℕ → ℕ → Img) (saveFs : String → Img → Except E Unit) :
    (∀ e, fs screenshot_path = .error e →
      combineRun fs resample saveFs = (.error e, [.readFile screenshot_path])) ∧
    (∀ a e, fs screenshot_path = .ok a → fs logo_path = .error e →
      combineRun fs resample saveFs =
        (.error e, [.readFile screenshot_path, .readFile logo_path])) ∧
    (∀ a logo e, fs screenshot_path = .ok a → fs logo_path = .ok logo →
      saveFs output_path (finalImage resample a logo) = .error e →
      combineRun fs resample saveFs =
        (.error e, [.readFile screenshot_path, .readFile logo_path])) ∧
    (∀ e, (combineRun fs resample saveFs).1 = Except.error e →
      (combineRun fs resample saveFs).2.filterMap writeOf = []) := by
  refine ⟨?_, ?_, ?_, ?_⟩
  · intro e he
    exact combineRun_err fs resample saveFs e he
  · intro a e ha he
    rw [combineRun_ok fs resample saveFs a ha]
    exact runWithScreenshot_err fs resample saveFs a e he
  · intro a logo e ha hl hs
    rw [combineRun_ok fs resample saveFs a ha, runWithScreenshot_ok fs resample saveFs a logo hl]
    exact runSave_err saveFs _ e hs
  · intro e he
    rcases h1 : fs screenshot_path with e1 | a
    · rw [combineRun_err fs resample saveFs e1 h1]
      rfl
    · rw [combineRun_ok fs resample saveFs a h1] at he ⊢
      rcases h2 : fs logo_path with e2 | logo
      · rw [runWithScreenshot_err fs resample saveFs a e2 h2]
        rfl
      · rw [runWithScreenshot_ok fs resample saveFs a logo h2] at he ⊢
        rcases h3 : saveFs output_path (finalImage resample a logo) with e3 | u
        · rw [runSave_err saveFs _ e3 h3]
          rfl
        · rw [runSave_ok saveFs _ u h3] at he
          simp at he

/-- Witness for C7 with a failing filesystem. -/
theorem claim_C7_witness :
    fsErr screenshot_path = Except.error () ∧
    combineRun fsErr resampleNN saveTest =
      (Except.error (), [Effect.readFile screenshot_path]) :=
  ⟨rfl, (claim_C7 fsErr resampleNN saveTest).1 () rfl⟩

/-- C8: the program reads exactly the two fixed input paths and writes
exactly one file at the fixed output path in PNG format; on every run the
reads are an initial segment of those two paths and the writes are at most
that single file, and a successful run performs exactly those reads and
exactly that write. -/
theorem claim_C8 {E : Type} (fs : String → Except E Img)
    (resample : Img → ℕ → ℕ → Img) (saveFs : String → Img → Except E Unit) :
    ((combineRun fs resample saveFs).2.filterMap readOf = [screenshot_path] ∨
     (combineRun fs resample saveFs).2.filterMap readOf = [screenshot_path, logo_path]) ∧
    ((combineRun fs resample saveFs).2.filterMap writeOf = [] ∨
     (combineRun fs resample saveFs).2.filterMap writeOf = [(output_path, png_format)]) ∧
    ((combineRun fs resample saveFs).1 = Except.ok () →
      (combineRun fs resample saveFs).2.filterMap readOf = [screenshot_path, logo_path] ∧
      (combineRun fs resample saveFs).2.filterMap writeOf = [(output_path, png_format)]) := by
  rcases h1 : fs screenshot_path with e1 | a
  · rw [combineRun_err fs resample saveFs e1 h1]
    exact ⟨Or.inl rfl, Or.inl rfl, fun he => absurd he (by simp)⟩
  · rw [combineRun_ok fs resample saveFs a h1]
    rcases h2 : fs logo_path with e2 | logo
    · rw [runWithScreenshot_err fs resample saveFs a e2 h2]
      exact ⟨Or.inr rfl, Or.inl rfl, fun he => absurd he (by simp)⟩
    · rw [runWithScreenshot_ok fs resample saveFs a logo h2]
      rcases h3 : saveFs output_path (finalImage resample a logo) with e3 | u
      · rw [runSave_err saveFs _ e3 h3]
        exact ⟨Or.inr rfl, Or.inl rfl, fun he => absurd he (by simp)⟩
      · rw [runSave_ok saveFs _ u h3]
        exact ⟨Or.inr rfl, Or.inr rfl, fun _ => ⟨rfl, rfl⟩⟩

/-- Witness for C8 with a succeeding filesystem. -/
theorem claim_C8_witness :
    (combineRun fsTest resampleNN saveTest).1 = Except.ok () ∧
    (combineRun fsTest resampleNN saveTest).2.filterMap readOf =
      [screenshot_path, logo_path] ∧
    (combineRun fsTest resampleNN saveTest).2.filterMap writeOf =
      [(output_path, png_format)] :=
  ⟨rfl, (claim_C8 fsTest resampleNN saveTest).2.2 rfl⟩

end GitbitModel
